import Mathlib

/-!
Verification of the memory-bank document server (src/index.ts, richer variant).

JavaScript strings are modelled as lists of characters (`Str`).  The string
operations used by the source (template literals, `split`, `join`, `trim`,
`startsWith`, `findIndex`, truthiness defaults) are embedded as executable
Lean functions below, and the document-editing operations (`addDecision`,
`mergeContext`, `updateProgress`, the formatters and the project inspector)
are translated from the TypeScript source.
-/

abbrev Str : Type := List Char

/-- Whitespace characters stripped by JavaScript `String.prototype.trim`
(ASCII whitespace together with the Unicode space characters that can occur
in these markdown documents). -/
def isWs (c : Char) : Bool :=
  c = ' ' || c = '\t' || c = '\n' || c = '\r' || c = '\x0b' || c = '\x0c' ||
  c = '\u00A0' || c = '\uFEFF'

def trimLeft (s : Str) : Str := s.dropWhile isWs

def trimRight (s : Str) : Str := (s.reverse.dropWhile isWs).reverse

/-- JavaScript `String.prototype.trim` (strip whitespace at both ends). -/
def jsTrim (s : Str) : Str := trimRight (trimLeft s)

/-- JavaScript `s.startsWith(p)`: `strStarts p s` holds when `p` is a prefix
of `s`. -/
def strStarts : Str → Str → Bool
  | [], _ => true
  | _ :: _, [] => false
  | a :: p, b :: s => a = b && strStarts p s

/-- JavaScript `Array.prototype.join(sep)`. -/
def joinSep (sep : Str) : List Str → Str
  | [] => []
  | [x] => x
  | x :: y :: ys => x ++ sep ++ joinSep sep (y :: ys)

/-- Helper for the splitters: prepend a character to the first piece. -/
def consHead (c : Char) : List Str → List Str
  | [] => [[c]]
  | t :: ts => (c :: t) :: ts

/-- JavaScript `String.prototype.split` specialised to the one-character
separator `"\n"` (used to analyse the line structure of documents). -/
def splitNl : Str → List Str
  | [] => [[]]
  | '\n' :: cs => [] :: splitNl cs
  | c :: cs => consHead c (splitNl cs)

/-- JavaScript `String.prototype.split` specialised to the separator
`"\n\n## "` that `addDecision` splits documents on. -/
def splitSec : Str → List Str
  | '\n' :: '\n' :: '#' :: '#' :: ' ' :: rest => [] :: splitSec rest
  | c :: cs => consHead c (splitSec cs)
  | [] => [[]]

/-- The separator `"\n\n## "` as a character list. -/
def secSep : Str := "\n\n## ".data

/-- JavaScript `Array.prototype.findIndex`, with the not-found value `-1`
modelled as `none`. -/
def findIdxO (p : Str → Bool) : List Str → Option Nat
  | [] => none
  | x :: xs => if p x then some 0 else (findIdxO p xs).map (· + 1)

/-- JavaScript `v || d` for an optional string value: the default is taken
when the value is absent (`undefined`) or falsy (the empty string). -/
def jsOrStr (v : Option Str) (d : Str) : Str :=
  match v with
  | none => d
  | some s => if s = [] then d else s

/-- `Set.prototype.add`: append the element unless already present
(JavaScript sets preserve insertion order). -/
def setAdd (l : List Str) (x : Str) : List Str :=
  if x ∈ l then l else l ++ [x]

/-- Fold `setAdd` over a list (the `forEach(... .add(task))` loops). -/
def setAddAll (l : List Str) (xs : List Str) : List Str :=
  xs.foldl setAdd l

/-- Worker for `dedupKeepFirst`, carrying the elements already emitted. -/
def dedupAux (seen : List Str) : List Str → List Str
  | [] => []
  | x :: xs => if x ∈ seen then dedupAux seen xs else x :: dedupAux (seen ++ [x]) xs

/-- `[...new Set(l)]`: deduplicate keeping first occurrences. -/
def dedupKeepFirst (l : List Str) : List Str := dedupAux [] l

/-! ## Data model (src/index.ts interfaces) -/

/-- The `status` enumeration of a decision record. -/
inductive Status
  | proposed
  | accepted
  | rejected
  | superseded
deriving DecidableEq

/-- Rendering of a `Status` value by a template literal. -/
def statusStr : Status → Str
  | .proposed => "proposed".data
  | .accepted => "accepted".data
  | .rejected => "rejected".data
  | .superseded => "superseded".data

/-- The `Decision` interface.  Optional fields are `Option`s
(`none` models an absent / `undefined` field). -/
structure Decision where
  title : Str
  description : Str
  rationale : Str
  alternatives : Option (List Str) := none
  date : Option Str := none
  status : Status
  impact : Option Str := none
  relatedDecisions : Option (List Str) := none

/-- The `progress` argument of `track_progress` (`completed` and
`inProgress` are required by the schema, `blocked` is optional). -/
structure Progress where
  completed : List Str
  inProgress : List Str
  blocked : Option (List Str) := none

/-- The in-memory `SessionState` (the three task sets are JavaScript `Set`s,
modelled as insertion-ordered duplicate-free lists). -/
structure SessionState where
  questionCount : Nat
  lastPrompted : Str
  currentPhase : Str
  completed : List Str
  inProgress : List Str
  blocked : List Str

/-- The `SessionState` built by the `MemoryBankServer` constructor. -/
def initialSessionState (today : Str) : SessionState :=
  { questionCount := 0, lastPrompted := today, currentPhase := "Development".data,
    completed := [], inProgress := [], blocked := [] }

/-! ## Section Editor (mergeContext, addDecision, updateProgress) -/

/-- `mergeContext` (src/index.ts:846-849).  The current date is passed in as
`today` (the source computes it from the clock). -/
def mergeContext (current today mode task : Str) : Str :=
  current ++ "\n\n## Session Update (".data ++ today ++ ")\n- Mode: ".data ++
    mode ++ "\n- Task: ".data ++ task

/-- The predicate `addDecision` scans sections with:
`s.startsWith('Technical Decisions') || s.startsWith('Pending Decisions')`. -/
def sectionHit (s : Str) : Bool :=
  strStarts ("Technical Decisions".data) s || strStarts ("Pending Decisions".data) s

/-- The `\n\nAlternatives Considered:` fragment of `addDecision`
(arrays are truthy in JavaScript even when empty). -/
def altPart (d : Decision) : Str :=
  match d.alternatives with
  | none => []
  | some alts =>
      "\n\nAlternatives Considered:\n".data ++
        joinSep ("\n".data) (alts.map (fun a => "- ".data ++ a))

/-- The `\n**Impact:**` fragment of `addDecision` (an empty impact string is
falsy and renders nothing). -/
def impactPart (d : Decision) : Str :=
  match d.impact with
  | none => []
  | some im => if im = [] then [] else "\n**Impact:** ".data ++ im

/-- The `\n\nRelated Decisions:` fragment of `addDecision`. -/
def relPart (d : Decision) : Str :=
  match d.relatedDecisions with
  | none => []
  | some rds =>
      "\n\nRelated Decisions:\n".data ++
        joinSep ("\n".data) (rds.map (fun r => "- ".data ++ r))

/-- The `newDecision` template literal of `addDecision`. -/
def newDecisionBlock (d : Decision) (today : Str) : Str :=
  "### ".data ++ d.title ++ " (".data ++ jsOrStr d.date today ++ ")\n".data ++
  d.description ++ "\n\n**Status:** ".data ++ statusStr d.status ++ impactPart d ++
  "\n\nRationale:\n".data ++ d.rationale ++ altPart d ++ relPart d

/-- `addDecision` (src/index.ts:851-878).  The source also computes a
`statusSection` string from `d.status` but never uses it: the insertion point
is the first section starting with either label.  `today` is the current
date used when `d.date` is absent or empty. -/
def addDecision (current : Str) (d : Decision) (today : Str) : Str :=
  let sections := splitSec current
  match findIdxO sectionHit sections with
  | none => current
  | some i =>
      joinSep secSep
        (sections.set i
          (jsTrim (sections.getD i []) ++ "\n\n".data ++ newDecisionBlock d today))

/-- `n.toString()` for the question counter interpolation. -/
def natStr (n : Nat) : Str := (toString n).data

/-- The string returned by `updateProgress`: the current document followed by
the new `## Update` block.  `shownCount` is the value of
`sessionState.questionCount` at the moment the template literal is built
(after the increment, and after the synchronous reset when the auto-save
threshold was crossed). -/
def progressUpdateText (current today phase : Str) (shownCount : Nat) (p : Progress) : Str :=
  let completed := joinSep ("\n".data) (p.completed.map (fun t => "- ✓ ".data ++ t))
  let inProg := joinSep ("\n".data) (p.inProgress.map (fun t => "- → ".data ++ t))
  let blocked :=
    match p.blocked with
    | some bl => "\n\nBlocked:\n".data ++ joinSep ("\n".data) (bl.map (fun t => "- ⚠ ".data ++ t))
    | none => []
  current ++ "\n\n## Update (".data ++ today ++ ")\nPhase: ".data ++ phase ++
    "\nQuestions Processed: ".data ++ natStr shownCount ++ "\n\nCompleted:\n".data ++
    completed ++ "\n\nIn Progress:\n".data ++ inProg ++ blocked

/-- The `forEach(... .add(task))` loops at the top of `updateProgress`
(`progress.blocked?.forEach` is skipped when the field is absent). -/
def addTaskSets (st : SessionState) (p : Progress) : SessionState :=
  { st with completed := setAddAll st.completed p.completed,
            inProgress := setAddAll st.inProgress p.inProgress,
            blocked := setAddAll st.blocked (p.blocked.getD []) }

/-- One `track_progress` call: `updateProgress` together with the
`checkAndPromptProgress` / `saveProgressUpdate` auto-save it triggers.
Returns the new session state, the text written for the direct call, and the
number of automatic saves performed.  `fuel` bounds the auto-save recursion;
the recursive call always runs with `questionCount = 1 < 10`, so it never
recurses further and `fuel = 1` reproduces the source exactly (the `0` case
is unreachable then).  The text appended by the auto-save itself goes to the
progress file and is discarded here. -/
def updateProgressGo : Nat → SessionState → Str → Str → Progress → SessionState × Str × Nat
  | fuel, st, current, today, p =>
    let st1 := addTaskSets st p
    let st2 := { st1 with questionCount := st1.questionCount + 1 }
    if st2.questionCount ≥ 10 then
      let stR := { st2 with questionCount := 0, lastPrompted := today }
      let text := progressUpdateText current today st.currentPhase 0 p
      match fuel with
      | 0 => (stR, text, 0)
      | f + 1 =>
        let pAuto : Progress :=
          { completed := stR.completed, inProgress := stR.inProgress, blocked := some stR.blocked }
        let r := updateProgressGo f stR current today pAuto
        ({ r.1 with completed := [], inProgress := [], blocked := [] }, text, r.2.2 + 1)
    else
      (st2, progressUpdateText current today st.currentPhase st2.questionCount p, 0)

/-- `updateProgress` as invoked by `handleTrackProgress` (auto-save depth is
at most one, see `updateProgressGo`). -/
def updateProgressCall (st : SessionState) (current today : Str) (p : Progress) :
    SessionState × Str × Nat :=
  updateProgressGo 1 st current today p

/-- A sequence of `track_progress` calls: each entry carries the progress
snapshot, the date, and the progress document content read for that call.
Returns the final session state and the per-call count of automatic saves. -/
def trackSeq : SessionState → List (Progress × Str × Str) → SessionState × List Nat
  | st, [] => (st, [])
  | st, (p, today, current) :: rest =>
    let r := updateProgressCall st current today p
    let rs := trackSeq r.1 rest
    (rs.1, r.2.2 :: rs.2)

/-! ## Template Formatter (formatDecisionLog, formatProjectContext) -/

/-- The per-decision template of `formatDecisionLog` (src/index.ts:480-498).
Note it differs slightly from the `addDecision` template: the status line has
no inline impact, and each optional part ends with its own newline. -/
def fmtDecisionEntry (d : Decision) : Str :=
  "### ".data ++ d.title ++ " (".data ++ jsOrStr d.date ("No date".data) ++ ")\n".data ++
  d.description ++ "\n\n**Status:** ".data ++ statusStr d.status ++ "\n".data ++
  (match d.impact with
   | none => []
   | some im => if im = [] then [] else "**Impact:** ".data ++ im ++ "\n".data) ++
  "\nRationale:\n".data ++ d.rationale ++ "\n\n".data ++
  (match d.alternatives with
   | none => []
   | some alts =>
       "Alternatives Considered:\n".data ++
         joinSep ("\n".data) (alts.map (fun a => "- ".data ++ a)) ++ "\n".data) ++
  "\n".data ++
  (match d.relatedDecisions with
   | none => []
   | some rds =>
       "Related Decisions:\n".data ++
         joinSep ("\n".data) (rds.map (fun r => "- ".data ++ r)))

/-- `formatDecisionLog` (src/index.ts:480-498). -/
def formatDecisionLog (decisions : List Decision) : Str :=
  "# Decision Log\n\n## Technical Decisions\n\n".data ++
  joinSep ("\n\n".data) (decisions.map fmtDecisionEntry) ++
  "\n\n## Pending Decisions\n".data

/-! ## Project Inspector (getProjectInfo, detectTechStack) -/

/-- `ProjectInfo` (src/index.ts:20-27). -/
structure ProjectInfo where
  name : Str
  version : Str
  description : Str
  license : Str
  dependencies : List Str
  devDependencies : List Str
deriving DecidableEq

/-- The fields `getProjectInfo` reads from a parsed `package.json`:
the four descriptive strings (absent when the JSON field is missing) and the
key lists of the two dependency objects (absent when the object is missing). -/
structure PackageJson where
  name : Option Str := none
  version : Option Str := none
  description : Option Str := none
  license : Option Str := none
  dependencies : Option (List Str) := none
  devDependencies : Option (List Str) := none

/-- `getProjectInfo` (src/index.ts:328-351).  `none` models the catch branch:
the manifest file is missing or `JSON.parse` failed. -/
def getProjectInfo (manifest : Option PackageJson) : ProjectInfo :=
  match manifest with
  | none =>
      { name := "Unknown".data, version := "0.1.0".data,
        description := "No description provided".data,
        license := "Not specified".data,
        dependencies := [], devDependencies := [] }
  | some pj =>
      { name := jsOrStr pj.name ("Unknown".data),
        version := jsOrStr pj.version ("0.1.0".data),
        description := jsOrStr pj.description ("No description provided".data),
        license := jsOrStr pj.license ("Not specified".data),
        dependencies := pj.dependencies.getD [],
        devDependencies := pj.devDependencies.getD [] }

/-- `TechStack` (src/index.ts:40-45); the `languages` `Set` is an
insertion-ordered duplicate-free list. -/
structure TechStack where
  runtime : Str
  frameworks : List Str
  languages : List Str
  configs : List Str
deriving DecidableEq

/-- The freshly initialised stack of `detectTechStack`. -/
def baseStack : TechStack :=
  { runtime := "Node.js".data, frameworks := [], languages := [], configs := [] }

/-- The `validLanguages` extension map (src/index.ts:362-381). -/
def validLanguages : List (Str × Str) :=
  [("js".data, "JavaScript".data), ("mjs".data, "JavaScript".data),
   ("jsx".data, "JavaScript (React)".data), ("ts".data, "TypeScript".data),
   ("tsx".data, "TypeScript (React)".data), ("py".data, "Python".data),
   ("rb".data, "Ruby".data), ("php".data, "PHP".data), ("java".data, "Java".data),
   ("go".data, "Go".data), ("rs".data, "Rust".data), ("c".data, "C".data),
   ("cpp".data, "C++".data), ("h".data, "C/C++ Header".data), ("cs".data, "C#".data),
   ("swift".data, "Swift".data), ("kt".data, "Kotlin".data), ("dart".data, "Dart".data)]

/-- The `relevantConfigs` filename set (src/index.ts:384-397). -/
def relevantConfigs : List Str :=
  [("package.json".data), ("tsconfig.json".data), (".eslintrc".data),
   (".prettierrc".data), (".babelrc".data), (".env".data),
   ("webpack.config.js".data), ("vite.config.js".data), ("next.config.js".data),
   (".gitignore".data), ("jest.config.js".data), ("rollup.config.js".data)]

/-- The `frameworkDetection` map (src/index.ts:426-439), in source order. -/
def frameworkDetection : List (Str × Str) :=
  [("react".data, "React".data), ("next".data, "Next.js".data),
   ("express".data, "Express".data), ("vue".data, "Vue.js".data),
   ("angular".data, "Angular".data), ("svelte".data, "Svelte".data),
   ("nestjs".data, "NestJS".data), ("@nestjs/core".data, "NestJS".data),
   ("fastify".data, "Fastify".data), ("koa".data, "Koa".data),
   ("gatsby".data, "Gatsby".data), ("nuxt".data, "Nuxt.js".data)]

/-- Association-list lookup (`Map.prototype.has` / `get`). -/
def lookupStr : List (Str × Str) → Str → Option Str
  | [], _ => none
  | (k, v) :: rest, x => if k = x then some v else lookupStr rest x

/-- `path.basename` for the slash-separated relative paths returned by
`fs.readdir` (the part after the last separator). -/
def basenameOf (f : Str) : Str :=
  f.foldl (fun acc c => if c = '/' then [] else acc ++ [c]) []

/-- `path.extname`: the suffix of the basename from its last dot; a dot as
the very first character (a dotfile) and a dotless name yield the empty
string. -/
def extnameOf (f : Str) : Str :=
  let r := (basenameOf f).reverse
  let pre := r.takeWhile (· ≠ '.')
  if pre.length = r.length then []
  else if pre.length + 1 = r.length then []
  else '.' :: pre.reverse

/-- The body of the `files.forEach` walk of `detectTechStack`:
`path.extname(file).toLowerCase().substring(1)` looked up in
`validLanguages`, and `path.basename(file)` checked against
`relevantConfigs`. -/
def stackAddFile (st : TechStack) (f : Str) : TechStack :=
  let ext := ((extnameOf f).map Char.toLower).drop 1
  let st1 :=
    match lookupStr validLanguages ext with
    | some lang => { st with languages := setAdd st.languages lang }
    | none => st
  let bn := basenameOf f
  if bn ∈ relevantConfigs then { st1 with configs := st1.configs ++ [bn] } else st1

/-- The framework scan over `Object.entries(frameworkDetection)`:
`deps` holds the keys of the merged dependency objects whose version values
are truthy (`if (allDeps[dep])`). -/
def detectFrameworks (deps : List Str) : List Str :=
  frameworkDetection.foldl (fun acc pr => if pr.1 ∈ deps then acc ++ [pr.2] else acc) []

/-- `detectTechStack` (src/index.ts:353-451).  `walk = none` models a failed
`fs.readdir` (the catch returns the still-empty stack); `pkgDeps = none`
models a failed `package.json` read or parse after the walk (the catch then
returns the stack with the mutations already applied). -/
def detectTechStack (walk : Option (List Str)) (pkgDeps : Option (List Str)) : TechStack :=
  match walk with
  | none => baseStack
  | some files =>
      let st1 := files.foldl stackAddFile baseStack
      let st2 := { st1 with configs := dedupKeepFirst st1.configs }
      match pkgDeps with
      | none => st2
      | some deps => { st2 with frameworks := detectFrameworks deps }

/-- Lexicographic comparison of UTF-16 strings (JavaScript default sort
order; all characters appearing here are in the basic plane, where code
points and code units coincide). -/
def strLe : Str → Str → Bool
  | [], _ => true
  | _ :: _, [] => false
  | a :: as, b :: bs => if a = b then strLe as bs else decide (a < b)

/-- Insert into a sorted list (helper for `jsSortStrs`). -/
def sortIns (x : Str) : List Str → List Str
  | [] => [x]
  | y :: ys => if strLe x y then x :: y :: ys else y :: sortIns x ys

/-- `Array.prototype.sort()` with the default string comparator. -/
def jsSortStrs (l : List Str) : List Str := l.foldr sortIns []

/-- The `formatDeps` helper of `formatProjectContext`. -/
def formatDeps (deps : List Str) : Str :=
  if deps = [] then "None".data
  else joinSep ("\n".data) (deps.map (fun d => "- ".data ++ d))

/-- The `corePackages` filter set of `formatProjectContext`. -/
def corePackages : List Str :=
  [("@types/node".data), ("typescript".data), ("ts-node".data), ("nodemon".data)]

/-- `formatProjectContext` (src/index.ts:500-537). -/
def formatProjectContext (info : ProjectInfo) (stack : TechStack) : Str :=
  let keyDeps := info.dependencies.filter (fun d => d ∉ corePackages)
  let keyDevDeps := info.devDependencies.filter (fun d => d ∉ corePackages)
  let langLine :=
    if stack.languages = [] then []
    else "Languages: ".data ++ joinSep (", ".data) (jsSortStrs stack.languages)
  let fwLine :=
    if stack.frameworks = [] then []
    else "Frameworks: ".data ++ joinSep (", ".data) stack.frameworks
  let typeStr :=
    if stack.frameworks = [] then "Modular".data
    else "Framework-based (".data ++ joinSep (", ".data) stack.frameworks ++ ")".data
  let mcpLine :=
    if ("@modelcontextprotocol/sdk".data) ∈ info.dependencies
    then "- MCP Server Implementation".data else []
  "# Project Context\n\n## Overview\n".data ++ info.name ++ " - ".data ++
  info.description ++ "\nVersion: ".data ++ info.version ++ "\nLicense: ".data ++
  info.license ++ "\n\n## Technical Stack\nRuntime: ".data ++ stack.runtime ++
  "\n".data ++ langLine ++ "\n".data ++ fwLine ++
  "\n\n## Dependencies\nCore:\n".data ++ formatDeps keyDeps ++
  "\n\nDevelopment:\n".data ++ formatDeps keyDevDeps ++
  "\n\n## Configuration\n".data ++
  joinSep ("\n".data) ((jsSortStrs stack.configs).map (fun c => "- ".data ++ c)) ++
  "\n\n## Architecture\n- Type: ".data ++ typeStr ++
  "\n- Language: ".data ++ jsOrStr stack.languages.head? ("Not detected".data) ++
  "\n- Environment: Node.js\n".data ++ mcpLine ++ "\n".data

/-- `generateInitialDecisions` (src/index.ts:453-478). -/
def generateInitialDecisions (info : ProjectInfo) (stack : TechStack) (today : Str) :
    List Decision :=
  let first : Decision :=
    { title := "Initial Project Structure".data,
      description := "Initialized ".data ++ info.name ++
        " with a modular architecture using ".data ++ stack.runtime,
      rationale := "Established foundation for scalable and maintainable development".data,
      status := .accepted, impact := some ("Project-wide".data), date := some today }
  if stack.frameworks = [] then [first]
  else
    [first,
     { title := "Framework Selection".data,
       description := "Selected ".data ++ joinSep (", ".data) stack.frameworks ++
         " as primary framework(s)".data,
       rationale := "Chosen based on project requirements and team expertise".data,
       status := .accepted, impact := some ("Technical architecture".data),
       date := some today }]

/-- The fixed `activeContext.md` template written by
`handleInitializeMemoryBank`. -/
def activeContextTemplate (today time : Str) : Str :=
  "# Active Context\n\n## Current Session\nStarted: ".data ++ today ++ " ".data ++
  time ++ "\nMode: Development\nCurrent Task: Initial Setup\n\n## Tasks\n### In Progress\n- [ ] Project initialization\n- [ ] Environment setup\n\n## Open Questions\n- What are the primary project goals?\n- What are the key technical requirements?\n\n## Recent Updates\n- ".data ++
  today ++ ": Project initialized".data

/-- The fixed `progress.md` template written by
`handleInitializeMemoryBank`. -/
def progressTemplate (today : Str) : Str :=
  "# Progress Log\n\n## Current Phase\nInitialization\n\n## Completed Tasks\n- Repository setup (".data ++
  today ++ ")\n- Basic project structure (".data ++ today ++
  ")\n\n## In Progress\n- Development environment configuration\n- Initial documentation\n\n## Upcoming\n- Code implementation\n- Testing setup\n\n## Blockers\n[None currently identified]".data

/-- The two fixed decisions appended to the initial decision log by
`handleInitializeMemoryBank`. -/
def fixedInitDecisions (today : Str) : List Decision :=
  [{ title := "Development Workflow".data,
     description := "Established initial development workflow and practices".data,
     rationale := "Ensure consistent development process and code quality".data,
     status := .accepted, impact := some ("Development process".data),
     date := some today,
     alternatives := some [("Ad-hoc development process".data),
                           ("Waterfall methodology".data)] },
   { title := "Documentation Strategy".data,
     description := "Implemented automated documentation with memory bank".data,
     rationale := "Maintain up-to-date project context and decision history".data,
     status := .accepted, impact := some ("Project documentation".data),
     date := some today }]

/-- The four `files` written by `handleInitializeMemoryBank`
(src/index.ts:539-666) as (relative path, content) pairs, given the
inspector results and the current date and time stamps. -/
def initFiles (info : ProjectInfo) (stack : TechStack) (today time : Str) :
    List (Str × Str) :=
  [(("projectContext.md".data), formatProjectContext info stack),
   (("activeContext.md".data), activeContextTemplate today time),
   (("progress.md".data), progressTemplate today),
   (("decisionLog.md".data),
     formatDecisionLog (generateInitialDecisions info stack today ++ fixedInitDecisions today))]

/-! ## Claim-level properties and proof bookkeeping -/

/-- A decision-entry header line: a line starting with the `"### "` marker. -/
def isEntryHeader (l : Str) : Bool := strStarts ("### ".data) l

/-- The decision-entry header lines of a document, in order: split into
lines, strip trailing whitespace from each line, and keep the entry
headers.  This is the identity of the `### `-headed blocks of a decision
log. -/
def entryHeaders (s : Str) : List Str :=
  ((splitNl s).map trimRight).filter isEntryHeader

/-- Entry headers after dropping the first `n` lines (a section spliced back
into a document contributes all its lines except that its first line gains a
`"## "` prefix; `hdrAt 1` is its contribution). -/
def hdrAt (n : Nat) (s : Str) : List Str :=
  (((splitNl s).map trimRight).drop n).filter isEntryHeader

/-- Concatenation of a list of line lists. -/
def catL (L : List (List Str)) : List Str := L.foldr (fun a b => a ++ b) []

/-- Prepend a string to the first line of a line list. -/
def prependStr (p : Str) : List Str → List Str
  | [] => []
  | l :: ls => (p ++ l) :: ls

/-- Append a character to the last line of a line list. -/
def modLastApp (c : Char) : List Str → List Str
  | [] => []
  | [x] => [x ++ [c]]
  | x :: y :: ys => x :: modLastApp c (y :: ys)

/-- Trailing-trimmed entry-header filtering of a list of lines
(`entryHeaders s = hdrLines (splitNl s)`). -/
def hdrLines (L : List Str) : List Str := (L.map trimRight).filter isEntryHeader

open List

/-! ## Basic lemmas about the string model -/

theorem strStarts_iff (p s : Str) : strStarts p s = true ↔ p <+: s := by
  induction p generalizing s with
  | nil => simp [strStarts]
  | cons a as ih =>
    cases s with
    | nil => simp [strStarts]
    | cons b bs =>
      rw [strStarts]
      simp only [Bool.and_eq_true, decide_eq_true_eq, ih, List.cons_prefix_cons]

theorem findIdxO_eq_none_of_all (p : Str → Bool) (l : List Str)
    (h : ∀ x ∈ l, p x = false) : findIdxO p l = none := by
  induction l with
  | nil => rfl
  | cons x xs ih =>
      simp [findIdxO, h x (by simp), ih (fun y hy => h y (by simp [hy]))]

theorem joinSep_cons (sep x : Str) (rest : List Str) (h : rest ≠ []) :
    joinSep sep (x :: rest) = x ++ sep ++ joinSep sep rest := by
  cases rest with
  | nil => exact absurd rfl h
  | cons y ys => rfl

theorem within_middle_of_append {l m a b : Str} (h : l <:+: m) : l <:+: a ++ m ++ b :=
  h.trans ⟨a, b, rfl⟩

/-- An element of a `join('\n')`, taken with the newline in front of the
whole join, occurs with a leading newline. -/
theorem nl_mem_joinSep_within (e : Str) (parts : List Str) (he : e ∈ parts) :
    (("\n".data) ++ e) <:+: (("\n".data) ++ joinSep ("\n".data) parts) := by
  induction parts with
  | nil => cases he
  | cons x rest ih =>
    rcases List.mem_cons.mp he with rfl | he2
    · cases rest with
      | nil => exact List.infix_refl _
      | cons y ys =>
        rw [joinSep_cons _ _ _ (by simp)]
        exact ⟨[], ("\n".data) ++ joinSep ("\n".data) (y :: ys), by simp [List.append_assoc]⟩
    · have hr : rest ≠ [] := by rintro rfl; cases he2
      rw [joinSep_cons _ _ _ hr]
      refine (ih he2).trans ?_
      exact ⟨("\n".data) ++ x, [], by simp [List.append_assoc]⟩

/-! ## The text produced by updateProgress -/

theorem progressUpdateText_extends (current today phase : Str) (n : Nat) (p : Progress) :
    current <+: progressUpdateText current today phase n p :=
  ⟨("\n\n## Update (".data) ++ today ++ (")\nPhase: ".data) ++ phase ++
    ("\nQuestions Processed: ".data) ++ natStr n ++ ("\n\nCompleted:\n".data) ++
    joinSep ("\n".data) (p.completed.map (fun u => ("- ✓ ".data) ++ u)) ++
    ("\n\nIn Progress:\n".data) ++
    joinSep ("\n".data) (p.inProgress.map (fun u => ("- → ".data) ++ u)) ++
    (match p.blocked with
     | some bl => ("\n\nBlocked:\n".data) ++
         joinSep ("\n".data) (bl.map (fun u => ("- ⚠ ".data) ++ u))
     | none => []),
   by simp only [progressUpdateText, List.append_assoc]⟩

theorem updateProgressCall_text_eq (st : SessionState) (current today : Str) (p : Progress) :
    ∃ n, (updateProgressCall st current today p).2.1 =
      progressUpdateText current today st.currentPhase n p := by
  unfold updateProgressCall updateProgressGo
  dsimp only
  split
  · exact ⟨0, rfl⟩
  · exact ⟨_, rfl⟩

theorem progressText_completed_marker (current today phase : Str) (n : Nat) (p : Progress)
    (t : Str) (ht : t ∈ p.completed) :
    (("\n- ✓ ".data) ++ t) <:+: progressUpdateText current today phase n p := by
  have h1 : (("\n".data) ++ (("- ✓ ".data) ++ t)) <:+:
      (("\n".data) ++ joinSep ("\n".data) (p.completed.map (fun u => ("- ✓ ".data) ++ u))) :=
    nl_mem_joinSep_within _ _ (List.mem_map_of_mem _ ht)
  have h2 : progressUpdateText current today phase n p =
      (current ++ ("\n\n## Update (".data) ++ today ++ (")\nPhase: ".data) ++ phase ++
        ("\nQuestions Processed: ".data) ++ natStr n ++ ("\n\nCompleted:".data)) ++
      ((("\n".data) ++ joinSep ("\n".data) (p.completed.map (fun u => ("- ✓ ".data) ++ u)))) ++
      (("\n\nIn Progress:\n".data) ++
        joinSep ("\n".data) (p.inProgress.map (fun u => ("- → ".data) ++ u)) ++
        (match p.blocked with
         | some bl => ("\n\nBlocked:\n".data) ++
             joinSep ("\n".data) (bl.map (fun u => ("- ⚠ ".data) ++ u))
         | none => [])) := by
    simp only [progressUpdateText, List.append_assoc]
    rfl
  rw [h2]
  refine within_middle_of_append ?_
  simpa [List.append_assoc] using h1

theorem progressText_inprogress_marker (current today phase : Str) (n : Nat) (p : Progress)
    (t : Str) (ht : t ∈ p.inProgress) :
    (("\n- → ".data) ++ t) <:+: progressUpdateText current today phase n p := by
  have h1 : (("\n".data) ++ (("- → ".data) ++ t)) <:+:
      (("\n".data) ++ joinSep ("\n".data) (p.inProgress.map (fun u => ("- → ".data) ++ u))) :=
    nl_mem_joinSep_within _ _ (List.mem_map_of_mem _ ht)
  have h2 : progressUpdateText current today phase n p =
      (current ++ ("\n\n## Update (".data) ++ today ++ (")\nPhase: ".data) ++ phase ++
        ("\nQuestions Processed: ".data) ++ natStr n ++ ("\n\nCompleted:\n".data) ++
        joinSep ("\n".data) (p.completed.map (fun u => ("- ✓ ".data) ++ u)) ++
        ("\n\nIn Progress:".data)) ++
      ((("\n".data) ++ joinSep ("\n".data) (p.inProgress.map (fun u => ("- → ".data) ++ u)))) ++
      (match p.blocked with
       | some bl => ("\n\nBlocked:\n".data) ++
           joinSep ("\n".data) (bl.map (fun u => ("- ⚠ ".data) ++ u))
       | none => []) := by
    simp only [progressUpdateText, List.append_assoc]
    rfl
  rw [h2]
  refine within_middle_of_append ?_
  simpa [List.append_assoc] using h1

theorem progressText_empty_blocked_suffix (current today phase : Str) (n : Nat)
    (completed inProgress : List Str) :
    ("\n\nBlocked:\n".data) <:+
      progressUpdateText current today phase n
        { completed := completed, inProgress := inProgress, blocked := some [] } := by
  have h2 : progressUpdateText current today phase n
      { completed := completed, inProgress := inProgress, blocked := some [] } =
      (current ++ ("\n\n## Update (".data) ++ today ++ (")\nPhase: ".data) ++ phase ++
        ("\nQuestions Processed: ".data) ++ natStr n ++ ("\n\nCompleted:\n".data) ++
        joinSep ("\n".data) (completed.map (fun u => ("- ✓ ".data) ++ u)) ++
        ("\n\nIn Progress:\n".data) ++
        joinSep ("\n".data) (inProgress.map (fun u => ("- → ".data) ++ u))) ++
      ("\n\nBlocked:\n".data) := by
    simp only [progressUpdateText, joinSep, List.map_nil, List.append_assoc, List.append_nil]
  rw [h2]
  exact List.suffix_append _ _

/-! ## Claims C6, C8, C9 -/

/-- Claim C6: for every current active-context text and valid session
update, `mergeContext` produces text strictly longer than the input whose
newly added suffix contains the supplied mode and task verbatim. -/
theorem C6_update_context_appends_mode_and_task (current today mode task : Str) :
    ∃ suffix, mergeContext current today mode task = current ++ suffix ∧
      current.length < (mergeContext current today mode task).length ∧
      mode <:+: suffix ∧ task <:+: suffix := by
  refine ⟨("\n\n## Session Update (".data) ++ today ++ (")\n- Mode: ".data) ++ mode ++
      ("\n- Task: ".data) ++ task,
    by simp only [mergeContext, List.append_assoc], ?_, ?_, ?_⟩
  · have h : mergeContext current today mode task =
        current ++ ('\n' :: (("\n## Session Update (".data) ++ today ++
          (")\n- Mode: ".data) ++ mode ++ ("\n- Task: ".data) ++ task)) := by
      simp [mergeContext, List.append_assoc]
    rw [h, List.length_append, List.length_cons]
    omega
  · exact ⟨("\n\n## Session Update (".data) ++ today ++ (")\n- Mode: ".data),
      ("\n- Task: ".data) ++ task, by simp [List.append_assoc]⟩
  · exact ⟨("\n\n## Session Update (".data) ++ today ++ (")\n- Mode: ".data) ++ mode ++
      ("\n- Task: ".data), [], by simp [List.append_assoc]⟩

/-- Claim C8: when the `fs.readdir` walk of `detectTechStack` fails, the
error is not propagated and the returned stack has no languages, no
frameworks and no config filenames. -/
theorem C8_walk_failure_yields_empty_stack (pkgDeps : Option (List Str)) :
    (detectTechStack none pkgDeps).languages = [] ∧
    (detectTechStack none pkgDeps).frameworks = [] ∧
    (detectTechStack none pkgDeps).configs = [] :=
  ⟨rfl, rfl, rfl⟩

/-- Claim C9: the active-context merge and the progress append both return a
string of which the input document is an exact prefix. -/
theorem C9_merge_and_progress_are_append_only (st : SessionState)
    (current today mode task : Str) (p : Progress) :
    current <+: mergeContext current today mode task ∧
    current <+: (updateProgressCall st current today p).2.1 := by
  constructor
  · exact ⟨("\n\n## Session Update (".data) ++ today ++ (")\n- Mode: ".data) ++ mode ++
      ("\n- Task: ".data) ++ task, by simp only [mergeContext, List.append_assoc]⟩
  · obtain ⟨n, hn⟩ := updateProgressCall_text_eq st current today p
    rw [hn]
    exact progressUpdateText_extends ..

/-! ## Claim C4 -/

/-- Claim C4: when no blank-line-delimited section of the current decision
log starts with either container label, `addDecision` returns the input
unchanged (a silent no-op). -/
theorem C4_missing_sections_silent_noop (current : Str) (d : Decision) (today : Str)
    (h : ∀ s ∈ splitSec current, sectionHit s = false) :
    addDecision current d today = current := by
  have hn := findIdxO_eq_none_of_all sectionHit (splitSec current) h
  simp only [addDecision, hn]

/-- Witness for C4 at a concrete document with no matching section. -/
theorem C4_missing_sections_silent_noop_witness :
    (∀ s ∈ splitSec ("# Notes\n\n## Other\nSome body".data), sectionHit s = false) ∧
    addDecision ("# Notes\n\n## Other\nSome body".data)
      { title := ("T".data), description := ("D".data), rationale := ("R".data),
        status := .accepted } ("2025-01-01".data) =
      ("# Notes\n\n## Other\nSome body".data) :=
  ⟨by decide,
   C4_missing_sections_silent_noop ("# Notes\n\n## Other\nSome body".data)
     { title := ("T".data), description := ("D".data), rationale := ("R".data),
       status := .accepted } ("2025-01-01".data) (by decide)⟩

set_option maxRecDepth 4096

/-! ## Claim C1: status-based placement -/

/-- Claim C1 (code bug): evaluation at a failing input.  On the standard
document layout ("Technical Decisions" before "Pending Decisions"), a
decision with status `proposed` is appended to the "Technical Decisions"
section and the "Pending Decisions" section is left unchanged: the unused
`statusSection` string means the status never influences the insertion
point. -/
theorem C1_proposed_decision_lands_in_technical_section :
    (splitSec (addDecision
        ("# Decision Log\n\n## Technical Decisions\n\n### Old (2024-01-01)\nOld body\n\n## Pending Decisions\n".data)
        { title := ("New thing".data), description := ("Desc".data),
          rationale := ("Why".data), status := .proposed,
          date := some ("2025-02-03".data) }
        ("2025-02-03".data))).getD 1 [] =
      ("Technical Decisions\n\n### Old (2024-01-01)\nOld body\n\n### New thing (2025-02-03)\nDesc\n\n**Status:** proposed\n\nRationale:\nWhy".data) ∧
    (splitSec (addDecision
        ("# Decision Log\n\n## Technical Decisions\n\n### Old (2024-01-01)\nOld body\n\n## Pending Decisions\n".data)
        { title := ("New thing".data), description := ("Desc".data),
          rationale := ("Why".data), status := .proposed,
          date := some ("2025-02-03".data) }
        ("2025-02-03".data))).getD 2 [] =
      ("Pending Decisions\n".data) := by
  constructor
  · decide
  · decide

/-! ## Claim C2: empty-but-present blocked list -/

/-- Claim C2 (counterexample): with `blocked = []` present, the appended
block does contain a "Blocked:" header (an empty array is truthy in
JavaScript), contradicting the claim that no such header is produced. -/
theorem C2_empty_blocked_list_header_counterexample :
    ("\n\nBlocked:\n".data) <:+:
      (updateProgressCall (initialSessionState ("2025-01-01".data)) ("# Progress Log".data)
        ("2025-01-01".data)
        { completed := [("A".data), ("B".data)], inProgress := [("C".data)],
          blocked := some [] }).2.1 := by
  decide

/-- Claim C2 (amended): with `blocked` present but empty, the text produced
by `track_progress` contains one completed-marker line per completed item
and one in-progress-marker line per in-progress item, and ends with a
"Blocked:" header that lists no items. -/
theorem C2_empty_blocked_list_renders_empty_header (st : SessionState)
    (current today : Str) (completed inProgress : List Str) :
    (∀ t ∈ completed, (("\n- ✓ ".data) ++ t) <:+:
      (updateProgressCall st current today
        { completed := completed, inProgress := inProgress, blocked := some [] }).2.1) ∧
    (∀ t ∈ inProgress, (("\n- → ".data) ++ t) <:+:
      (updateProgressCall st current today
        { completed := completed, inProgress := inProgress, blocked := some [] }).2.1) ∧
    (("\n\nBlocked:\n".data) <:+
      (updateProgressCall st current today
        { completed := completed, inProgress := inProgress, blocked := some [] }).2.1) := by
  obtain ⟨n, hn⟩ := updateProgressCall_text_eq st current today
    { completed := completed, inProgress := inProgress, blocked := some [] }
  rw [hn]
  exact ⟨fun t ht => progressText_completed_marker _ _ _ _ _ t ht,
         fun t ht => progressText_inprogress_marker _ _ _ _ _ t ht,
         progressText_empty_blocked_suffix _ _ _ _ _ _⟩

/-- Witness for the amended C2 at a concrete snapshot. -/
theorem C2_empty_blocked_list_renders_empty_header_witness :
    (("A".data) ∈ [("A".data), ("B".data)]) ∧
    (("\n- ✓ A".data) <:+:
      (updateProgressCall (initialSessionState ("2025-01-01".data)) ("# Progress Log".data)
        ("2025-01-01".data)
        { completed := [("A".data), ("B".data)], inProgress := [("C".data)],
          blocked := some [] }).2.1) :=
  ⟨by decide,
   by
    have h := (C2_empty_blocked_list_renders_empty_header
      (initialSessionState ("2025-01-01".data)) ("# Progress Log".data)
      ("2025-01-01".data) [("A".data), ("B".data)] [("C".data)]).1 ("A".data) (by decide)
    simpa using h⟩

/-! ## Claim C7 -/

/-- Claim C7: on a missing or unparseable manifest, project inspection
returns the defaults and `initialize_memory_bank` still produces all four
documents, whose project-context text carries the placeholder name and
version. -/
theorem C7_missing_manifest_defaults (stack : TechStack) (today time : Str) :
    getProjectInfo none =
      { name := ("Unknown".data), version := ("0.1.0".data),
        description := ("No description provided".data),
        license := ("Not specified".data),
        dependencies := [], devDependencies := [] } ∧
    (initFiles (getProjectInfo none) stack today time).map Prod.fst =
      [("projectContext.md".data), ("activeContext.md".data),
       ("progress.md".data), ("decisionLog.md".data)] ∧
    ("Unknown".data) <:+: formatProjectContext (getProjectInfo none) stack ∧
    ("0.1.0".data) <:+: formatProjectContext (getProjectInfo none) stack := by
  have hpre : ("# Project Context\n\n## Overview\nUnknown - No description provided\nVersion: 0.1.0".data) <+:
      formatProjectContext (getProjectInfo none) stack := by
    simp only [formatProjectContext, getProjectInfo]
    simp [List.cons_prefix_cons]
  refine ⟨rfl, by simp [initFiles], ?_, ?_⟩
  · exact IsInfix.trans (by decide) hpre.isInfix
  · exact IsInfix.trans (by decide) hpre.isInfix

/-! ## Splitter boundary lemmas -/

theorem consHead_ne_nil (c : Char) (L : List Str) : consHead c L ≠ [] := by
  cases L <;> simp [consHead]

theorem consHead_cons (c : Char) (t : Str) (ts : List Str) :
    consHead c (t :: ts) = (c :: t) :: ts := rfl

theorem splitSec_ne_nil (s : Str) : splitSec s ≠ [] := by
  rw [splitSec.eq_def]
  split
  · simp
  · exact consHead_ne_nil _ _
  · simp

theorem splitNl_ne_nil (s : Str) : splitNl s ≠ [] := by
  rw [splitNl.eq_def]
  split
  · simp
  · simp
  · exact consHead_ne_nil _ _

theorem splitSec_cons_ne (c : Char) (cs : Str) (h : c ≠ '\n') :
    splitSec (c :: cs) = consHead c (splitSec cs) := by
  rw [splitSec.eq_def]
  split
  · rename_i heq
    injection heq with h1 _
    exact absurd h1 h
  · rename_i heq
    injection heq with h1 h2
    subst h1
    subst h2
    rfl
  · rename_i heq
    cases heq

theorem splitSec_sep (b : Str) :
    splitSec ('\n' :: '\n' :: '#' :: '#' :: ' ' :: b) = [] :: splitSec b := by
  rw [splitSec.eq_def]
  rfl

theorem splitSec_boundary (a b : Str) (ha : '\n' ∉ a) :
    splitSec (a ++ ('\n' :: '\n' :: '#' :: '#' :: ' ' :: b)) = a :: splitSec b := by
  induction a with
  | nil => simpa using splitSec_sep b
  | cons c a ih =>
      have hc : c ≠ '\n' := fun hcc => ha (by simp [hcc])
      have ha2 : '\n' ∉ a := fun hmem => ha (by simp [hmem])
      rw [List.cons_append, splitSec_cons_ne c _ hc, ih ha2, consHead_cons]

theorem prependStr_nil_of_ne (L : List Str) (h : L ≠ []) : prependStr [] L = L := by
  cases L with
  | nil => exact absurd rfl h
  | cons l ls => simp [prependStr]

theorem consHead_prependStr (c : Char) (p : Str) (L : List Str) (h : L ≠ []) :
    consHead c (prependStr p L) = prependStr (c :: p) L := by
  cases L with
  | nil => exact absurd rfl h
  | cons l ls => simp [prependStr, consHead]

theorem splitSec_prepend (p r : Str) (hp : '\n' ∉ p) :
    splitSec (p ++ r) = prependStr p (splitSec r) := by
  induction p with
  | nil => simp [prependStr_nil_of_ne _ (splitSec_ne_nil r)]
  | cons c p ih =>
      have hc : c ≠ '\n' := fun hcc => hp (by simp [hcc])
      have hp2 : '\n' ∉ p := fun hmem => hp (by simp [hmem])
      rw [List.cons_append, splitSec_cons_ne c _ hc, ih hp2,
        consHead_prependStr c p _ (splitSec_ne_nil r)]

/-! ## Claim C10 -/

theorem findIdxO_cons_false_true (p : Str → Bool) (a x : Str) (xs : List Str)
    (ha : p a = false) (hx : p x = true) :
    findIdxO p (a :: x :: xs) = some 1 := by
  simp [findIdxO, ha, hx]

/-- Claim C10: for every list of decision records the decision-log formatter
emits both container headings literally, and the section search of
`addDecision` on such a freshly formatted log always finds a target
section (index 1), so the no-op branch is never taken. -/
theorem C10_formatted_log_always_has_target_sections (ds : List Decision) :
    ("## Technical Decisions".data) <:+: formatDecisionLog ds ∧
    ("## Pending Decisions".data) <:+: formatDecisionLog ds ∧
    findIdxO sectionHit (splitSec (formatDecisionLog ds)) = some 1 := by
  have hdoc : formatDecisionLog ds =
      ("# Decision Log".data) ++
        ('\n' :: '\n' :: '#' :: '#' :: ' ' ::
          (("Technical Decisions".data) ++
            (("\n\n".data) ++ joinSep ("\n\n".data) (ds.map fmtDecisionEntry) ++
              ("\n\n## Pending Decisions\n".data)))) := by
    simp [formatDecisionLog, List.append_assoc]
  refine ⟨?_, ?_, ?_⟩
  · exact ⟨("# Decision Log\n\n".data),
      ("\n\n".data) ++ joinSep ("\n\n".data) (ds.map fmtDecisionEntry) ++
        ("\n\n## Pending Decisions\n".data),
      by rw [hdoc]; simp [List.append_assoc]⟩
  · exact ⟨("# Decision Log\n\n## Technical Decisions\n\n".data) ++
        joinSep ("\n\n".data) (ds.map fmtDecisionEntry) ++ ("\n\n".data),
      ("\n".data),
      by rw [hdoc]; simp [List.append_assoc]⟩
  · rw [hdoc, splitSec_boundary _ _ (by decide),
      splitSec_prepend ("Technical Decisions".data) _ (by decide)]
    rcases hsp : splitSec (("\n\n".data) ++ joinSep ("\n\n".data) (ds.map fmtDecisionEntry) ++
        ("\n\n## Pending Decisions\n".data)) with _ | ⟨l0, ls⟩
    · exact absurd hsp (splitSec_ne_nil _)
    · rw [prependStr]
      refine findIdxO_cons_false_true _ _ _ _ (by decide) ?_
      simp [sectionHit, strStarts]

/-! ## Claim C3 -/

theorem addTaskSets_questionCount (st : SessionState) (p : Progress) :
    (addTaskSets st p).questionCount = st.questionCount := rfl

/-- A `track_progress` call that does not reach the threshold: the counter
just increments and no auto-save happens. -/
theorem updateProgressGo_no_trigger (fuel : Nat) (st : SessionState) (c d : Str)
    (p : Progress) (h : st.questionCount + 1 < 10) :
    updateProgressGo fuel st c d p =
      ({ addTaskSets st p with questionCount := st.questionCount + 1 },
       progressUpdateText c d st.currentPhase (st.questionCount + 1) p, 0) := by
  unfold updateProgressGo
  dsimp only
  split
  · rename_i hge
    rw [addTaskSets_questionCount] at hge
    omega
  · rfl

/-- The tenth accumulated call: the counter resets, exactly one auto-save
runs with the accumulated sets, and the accumulator sets are cleared. -/
theorem updateProgressGo_trigger (st : SessionState) (c d : Str) (p : Progress)
    (h : st.questionCount = 9) :
    updateProgressGo 1 st c d p =
      ({ questionCount := 1, lastPrompted := d, currentPhase := st.currentPhase,
         completed := [], inProgress := [], blocked := [] },
       progressUpdateText c d st.currentPhase 0 p, 1) := by
  unfold updateProgressGo
  dsimp only
  split
  · unfold updateProgressGo
    dsimp only
    split
    · rename_i hge2
      simp [addTaskSets_questionCount] at hge2
    · rfl
  · rename_i hlt
    rw [addTaskSets_questionCount, h] at hlt
    omega

/-- Composition of call sequences. -/
theorem trackSeq_append (st : SessionState) (a b : List (Progress × Str × Str)) :
    trackSeq st (a ++ b) =
      ((trackSeq (trackSeq st a).1 b).1,
       (trackSeq st a).2 ++ (trackSeq (trackSeq st a).1 b).2) := by
  induction a generalizing st with
  | nil => simp [trackSeq]
  | cons e es ih =>
      obtain ⟨p, t, c⟩ := e
      simp [trackSeq, ih]

/-- Below the threshold every call increments the counter and triggers no
auto-save, and the phase is unchanged. -/
theorem trackSeq_below_threshold (es : List (Progress × Str × Str)) (st : SessionState)
    (h : st.questionCount + es.length ≤ 9) :
    (trackSeq st es).2 = List.replicate es.length 0 ∧
    (trackSeq st es).1.questionCount = st.questionCount + es.length ∧
    (trackSeq st es).1.currentPhase = st.currentPhase := by
  induction es generalizing st with
  | nil => simp [trackSeq]
  | cons e es ih =>
      obtain ⟨p, t, c⟩ := e
      have hq : ({ addTaskSets st p with
          questionCount := st.questionCount + 1 } : SessionState).questionCount =
          st.questionCount + 1 := rfl
      have hph : ({ addTaskSets st p with
          questionCount := st.questionCount + 1 } : SessionState).currentPhase =
          st.currentPhase := rfl
      have hlen : st.questionCount + 1 + es.length ≤ 9 := by
        simp only [List.length_cons] at h
        omega
      have hcall := updateProgressGo_no_trigger 1 st c t p (by omega)
      have hrec := ih ({ addTaskSets st p with questionCount := st.questionCount + 1 })
        (by rw [hq]; omega)
      simp only [trackSeq, updateProgressCall, hcall]
      refine ⟨?_, ?_, ?_⟩
      · simp [hrec.1, List.replicate_succ]
      · rw [hrec.2.1, hq, List.length_cons]
        omega
      · rw [hrec.2.2, hph]

/-- Claim C3: from a fresh session state, eleven `track_progress` calls
trigger exactly one automatic extra save, occurring at the tenth call, and
the accumulator sets are all empty immediately after that auto-save. -/
theorem C3_tenth_call_triggers_single_autosave (d0 : Str)
    (e1 e2 e3 e4 e5 e6 e7 e8 e9 e10 e11 : Progress × Str × Str) :
    (trackSeq (initialSessionState d0) [e1, e2, e3, e4, e5, e6, e7, e8, e9, e10]).2 =
      [0, 0, 0, 0, 0, 0, 0, 0, 0, 1] ∧
    (trackSeq (initialSessionState d0) [e1, e2, e3, e4, e5, e6, e7, e8, e9, e10]).1.completed = [] ∧
    (trackSeq (initialSessionState d0) [e1, e2, e3, e4, e5, e6, e7, e8, e9, e10]).1.inProgress = [] ∧
    (trackSeq (initialSessionState d0) [e1, e2, e3, e4, e5, e6, e7, e8, e9, e10]).1.blocked = [] ∧
    (trackSeq (initialSessionState d0) [e1, e2, e3, e4, e5, e6, e7, e8, e9, e10, e11]).2 =
      [0, 0, 0, 0, 0, 0, 0, 0, 0, 1, 0] := by
  obtain ⟨p10, t10, c10⟩ := e10
  obtain ⟨p11, t11, c11⟩ := e11
  have h9 := trackSeq_below_threshold [e1, e2, e3, e4, e5, e6, e7, e8, e9]
    (initialSessionState d0) (by simp [initialSessionState])
  set st9 := (trackSeq (initialSessionState d0) [e1, e2, e3, e4, e5, e6, e7, e8, e9]).1
    with hst9
  have hcount9 : st9.questionCount = 9 := by
    rw [h9.2.1]
    simp [initialSessionState]
  have hsingle : trackSeq st9 [(p10, t10, c10)] =
      ({ questionCount := 1, lastPrompted := t10, currentPhase := st9.currentPhase,
         completed := [], inProgress := [], blocked := [] }, [1]) := by
    simp [trackSeq, updateProgressCall, updateProgressGo_trigger st9 c10 t10 p10 hcount9]
  have h10eq : ([e1, e2, e3, e4, e5, e6, e7, e8, e9, (p10, t10, c10)] :
      List (Progress × Str × Str)) =
      [e1, e2, e3, e4, e5, e6, e7, e8, e9] ++ [(p10, t10, c10)] := rfl
  have hfull10 : trackSeq (initialSessionState d0)
      [e1, e2, e3, e4, e5, e6, e7, e8, e9, (p10, t10, c10)] =
      ({ questionCount := 1, lastPrompted := t10, currentPhase := st9.currentPhase,
         completed := [], inProgress := [], blocked := [] },
       List.replicate 9 0 ++ [1]) := by
    rw [h10eq, trackSeq_append, ← hst9, hsingle, h9.1]
    rfl
  have hlast := trackSeq_below_threshold [(p11, t11, c11)]
    ({ questionCount := 1, lastPrompted := t10, currentPhase := st9.currentPhase,
       completed := [], inProgress := [], blocked := [] }) (by simp)
  have h11eq : ([e1, e2, e3, e4, e5, e6, e7, e8, e9, (p10, t10, c10), (p11, t11, c11)] :
      List (Progress × Str × Str)) =
      [e1, e2, e3, e4, e5, e6, e7, e8, e9, (p10, t10, c10)] ++ [(p11, t11, c11)] := rfl
  have hfull11 : (trackSeq (initialSessionState d0)
      [e1, e2, e3, e4, e5, e6, e7, e8, e9, (p10, t10, c10), (p11, t11, c11)]).2 =
      List.replicate 9 0 ++ [1] ++ [0] := by
    rw [h11eq, trackSeq_append, hfull10]
    have h2 : (trackSeq
        ({ questionCount := 1, lastPrompted := t10, currentPhase := st9.currentPhase,
           completed := [], inProgress := [], blocked := [] })
        [(p11, t11, c11)]).2 = List.replicate 1 0 := hlast.1
    simp only [h2]
    rfl
  refine ⟨?_, ?_, ?_, ?_, ?_⟩
  · rw [hfull10]
    rfl
  · rw [hfull10]
  · rw [hfull10]
  · rw [hfull10]
  · rw [hfull11]
    rfl

/-! ## Line-structure lemmas for the entry-preservation claim -/

theorem splitNl_nil : splitNl [] = [[]] := rfl

theorem splitNl_cons_nl (cs : Str) : splitNl ('\n' :: cs) = [] :: splitNl cs := rfl

theorem splitNl_cons_ne (c : Char) (cs : Str) (h : c ≠ '\n') :
    splitNl (c :: cs) = consHead c (splitNl cs) := by
  rw [splitNl.eq_def]
  split
  · rename_i heq
    cases heq
  · rename_i heq
    injection heq with h1 _
    exact absurd h1 h
  · rename_i heq
    injection heq with h1 h2
    subst h1
    subst h2
    rfl

theorem consHead_append (c : Char) (L M : List Str) (h : L ≠ []) :
    consHead c (L ++ M) = consHead c L ++ M := by
  cases L with
  | nil => exact absurd rfl h
  | cons t ts => rfl

theorem splitNl_append_nl (a b : Str) : splitNl (a ++ '\n' :: b) = splitNl a ++ splitNl b := by
  induction a with
  | nil => rfl
  | cons c a ih =>
      by_cases hc : c = '\n'
      · subst hc
        rw [List.cons_append, splitNl_cons_nl, splitNl_cons_nl, ih, List.cons_append]
      · rw [List.cons_append, splitNl_cons_ne c _ hc, splitNl_cons_ne c _ hc, ih,
          consHead_append c _ _ (splitNl_ne_nil a)]

theorem splitNl_prepend (p r : Str) (hp : '\n' ∉ p) :
    splitNl (p ++ r) = prependStr p (splitNl r) := by
  induction p with
  | nil => simp [prependStr_nil_of_ne _ (splitNl_ne_nil r)]
  | cons c p ih =>
      have hc : c ≠ '\n' := fun hcc => hp (by simp [hcc])
      have hp2 : '\n' ∉ p := fun hmem => hp (by simp [hmem])
      rw [List.cons_append, splitNl_cons_ne c _ hc, ih hp2,
        consHead_prependStr c p _ (splitNl_ne_nil r)]

theorem modLastApp_cons (c : Char) (x : Str) (L : List Str) (h : L ≠ []) :
    modLastApp c (x :: L) = x :: modLastApp c L := by
  cases L with
  | nil => exact absurd rfl h
  | cons y ys => rfl

theorem consHead_modLastApp (d c : Char) (L : List Str) (h : L ≠ []) :
    consHead d (modLastApp c L) = modLastApp c (consHead d L) := by
  cases L with
  | nil => exact absurd rfl h
  | cons l ls =>
      cases ls with
      | nil => simp [modLastApp, consHead]
      | cons l2 ls2 => simp [modLastApp, consHead]

theorem modLastApp_ne_nil (c : Char) (L : List Str) (h : L ≠ []) : modLastApp c L ≠ [] := by
  cases L with
  | nil => exact absurd rfl h
  | cons l ls => cases ls <;> simp [modLastApp]

theorem splitNl_append_char (a : Str) (c : Char) (h : c ≠ '\n') :
    splitNl (a ++ [c]) = modLastApp c (splitNl a) := by
  induction a with
  | nil =>
      rw [List.nil_append, splitNl_cons_ne c _ h]
      rfl
  | cons d a ih =>
      by_cases hd : d = '\n'
      · subst hd
        rw [List.cons_append, splitNl_cons_nl, splitNl_cons_nl, ih,
          modLastApp_cons c _ _ (splitNl_ne_nil a)]
      · rw [List.cons_append, splitNl_cons_ne d _ hd, splitNl_cons_ne d _ hd, ih,
          consHead_modLastApp d c _ (splitNl_ne_nil a)]

/-! ## Trim lemmas -/

theorem trimRight_snoc_ws (l : Str) (c : Char) (h : isWs c = true) :
    trimRight (l ++ [c]) = trimRight l := by
  unfold trimRight
  rw [List.reverse_append]
  simp [List.dropWhile_cons, h]

theorem trimRight_decomp (s : Str) :
    ∃ w, s = trimRight s ++ w ∧ ∀ c ∈ w, isWs c = true := by
  refine ⟨(s.reverse.takeWhile isWs).reverse, ?_, ?_⟩
  · conv_lhs => rw [← List.reverse_reverse s, ← List.takeWhile_append_dropWhile (p := isWs) (l := s.reverse)]
    rw [List.reverse_append]
    rfl
  · intro c hc
    rw [List.mem_reverse] at hc
    exact List.mem_takeWhile_imp hc

theorem trimRight_initial (s : Str) : trimRight s <+: s := by
  obtain ⟨w, hw, _⟩ := trimRight_decomp s
  exact ⟨w, hw.symm⟩

theorem trimRight_nil : trimRight [] = [] := rfl

theorem trimLeft_cons_not_ws (c : Char) (s : Str) (h : isWs c = false) :
    trimLeft (c :: s) = c :: s := by
  simp [trimLeft, List.dropWhile_cons, h]

/-! ## Header-line bookkeeping -/

theorem entryHeaders_eq_hdrLines (s : Str) : entryHeaders s = hdrLines (splitNl s) := rfl

theorem hdrAt_eq_hdrLines (n : Nat) (s : Str) :
    hdrAt n s = hdrLines ((splitNl s).drop n) := by
  simp [hdrAt, hdrLines, List.map_drop]

theorem hdrLines_append (L M : List Str) :
    hdrLines (L ++ M) = hdrLines L ++ hdrLines M := by
  simp [hdrLines, List.filter_append]

theorem hdrLines_cons_empty (L : List Str) :
    hdrLines ([] :: L) = hdrLines L := by
  simp [hdrLines, trimRight_nil, isEntryHeader, strStarts]

theorem map_trimRight_modLastApp (c : Char) (L : List Str) (h : isWs c = true) :
    (modLastApp c L).map trimRight = L.map trimRight := by
  induction L with
  | nil => rfl
  | cons l ls ih =>
      cases ls with
      | nil => simp [modLastApp, trimRight_snoc_ws _ _ h]
      | cons l2 ls2 =>
          rw [modLastApp_cons c _ _ (by simp)]
          simp only [List.map_cons]
          rw [ih]
          simp

theorem map_trimRight_snoc_ws (s : Str) (c : Char) (hws : isWs c = true) (hc : c ≠ '\n') :
    (splitNl (s ++ [c])).map trimRight = (splitNl s).map trimRight := by
  rw [splitNl_append_char s c hc, map_trimRight_modLastApp c _ hws]

theorem map_trimRight_snoc_nl (s : Str) :
    (splitNl (s ++ ['\n'])).map trimRight = (splitNl s).map trimRight ++ [[]] := by
  have h : s ++ ['\n'] = s ++ '\n' :: ([] : Str) := rfl
  rw [h, splitNl_append_nl, splitNl_nil]
  simp [trimRight_nil]

theorem length_map_trimRight_pos (s : Str) :
    1 ≤ ((splitNl s).map trimRight).length := by
  rcases hsp : splitNl s with _ | ⟨t, ts⟩
  · exact absurd hsp (splitNl_ne_nil s)
  · simp

theorem hdrAt_snoc_ws (n : Nat) (s : Str) (c : Char) (hn : n ≤ 1) (hws : isWs c = true) :
    hdrAt n (s ++ [c]) = hdrAt n s := by
  by_cases hc : c = '\n'
  · subst hc
    unfold hdrAt
    rw [map_trimRight_snoc_nl,
      List.drop_append_of_le_length (le_trans hn (length_map_trimRight_pos s))]
    simp [isEntryHeader, strStarts]
  · unfold hdrAt
    rw [map_trimRight_snoc_ws s c hws hc]

theorem hdrAt_append_ws (n : Nat) (s w : Str) (hn : n ≤ 1)
    (hw : ∀ c ∈ w, isWs c = true) : hdrAt n (s ++ w) = hdrAt n s := by
  induction w generalizing s with
  | nil => simp
  | cons c w ih =>
      have h1 : s ++ c :: w = (s ++ [c]) ++ w := by simp
      rw [h1, ih (s ++ [c]) (fun x hx => hw x (by simp [hx])),
        hdrAt_snoc_ws n s c hn (hw c (by simp))]

theorem hdrAt_trimRight (n : Nat) (s : Str) (hn : n ≤ 1) :
    hdrAt n (trimRight s) = hdrAt n s := by
  obtain ⟨w, hw, hws⟩ := trimRight_decomp s
  conv_rhs => rw [hw]
  rw [hdrAt_append_ws n _ w hn hws]

/-! ## Round trip and section-to-line bridge -/

theorem catL_nil : catL [] = [] := rfl

theorem catL_cons (a : List Str) (L : List (List Str)) : catL (a :: L) = a ++ catL L := rfl

theorem catL_append (L M : List (List Str)) : catL (L ++ M) = catL L ++ catL M := by
  induction L with
  | nil => rfl
  | cons a L ih => simp [catL_cons, ih, List.append_assoc]

theorem prependStr_append (p : Str) (L M : List Str) (h : L ≠ []) :
    prependStr p (L ++ M) = prependStr p L ++ M := by
  cases L with
  | nil => exact absurd rfl h
  | cons l ls => rfl

theorem joinSep_consHead (sep : Str) (c : Char) (L : List Str) (h : L ≠ []) :
    joinSep sep (consHead c L) = c :: joinSep sep L := by
  cases L with
  | nil => exact absurd rfl h
  | cons t ts =>
      cases ts with
      | nil => rfl
      | cons t2 ts2 => simp [consHead, joinSep, List.cons_append]

theorem splitSec_cons_of_not_sep (c : Char) (cs : Str)
    (h : ∀ rest : List Char, c = '\n' → cs = '\n' :: '#' :: '#' :: ' ' :: rest → False) :
    splitSec (c :: cs) = consHead c (splitSec cs) := by
  rw [splitSec.eq_def]
  split
  · rename_i heq
    injection heq with h1 h2
    exact (h _ h1 h2).elim
  · rename_i heq
    injection heq with h1 h2
    subst h1
    subst h2
    rfl
  · rename_i heq
    cases heq

theorem joinSec_splitSec (s : Str) : joinSep secSep (splitSec s) = s := by
  induction s using splitSec.induct with
  | case1 rest ih =>
      rw [splitSec_sep, joinSep_cons _ _ _ (splitSec_ne_nil rest), ih]
      rfl
  | case2 c cs h ih =>
      rw [splitSec_cons_of_not_sep c cs h,
        joinSep_consHead secSep c _ (splitSec_ne_nil cs), ih]
  | case3 => rfl

theorem splitNl_joinSec (x : Str) (xs : List Str) :
    splitNl (joinSep secSep (x :: xs)) =
      splitNl x ++ catL (xs.map (fun z => [] :: prependStr ("## ".data) (splitNl z))) := by
  induction xs generalizing x with
  | nil => simp [joinSep, catL]
  | cons z ws ih =>
      rw [joinSep_cons secSep x (z :: ws) (by simp)]
      have hform : x ++ secSep ++ joinSep secSep (z :: ws) =
          x ++ '\n' :: ('\n' :: (("## ".data) ++ joinSep secSep (z :: ws))) := by
        simp [secSep, List.append_assoc]
      rw [hform, splitNl_append_nl, splitNl_cons_nl,
        splitNl_prepend ("## ".data) _ (by decide), ih z,
        prependStr_append ("## ".data) _ _ (splitNl_ne_nil z)]
      simp [catL_cons, List.append_assoc]

theorem hdrLines_catL (L : List (List Str)) :
    hdrLines (catL L) = catL (L.map hdrLines) := by
  induction L with
  | nil => rfl
  | cons a L ih => rw [catL_cons, hdrLines_append, ih, List.map_cons, catL_cons]

theorem not_header_trim_hh (l : Str) :
    isEntryHeader (trimRight ('#' :: '#' :: ' ' :: l)) = false := by
  by_contra hne
  rw [Bool.not_eq_false] at hne
  simp only [isEntryHeader] at hne
  have h1 : ("### ".data) <+: trimRight ('#' :: '#' :: ' ' :: l) := (strStarts_iff _ _).mp hne
  have h3 := h1.trans (trimRight_initial ('#' :: '#' :: ' ' :: l))
  simp [List.cons_prefix_cons] at h3

theorem hdrLines_chunk (z : Str) :
    hdrLines ([] :: prependStr ("## ".data) (splitNl z)) = hdrAt 1 z := by
  rcases hsp : splitNl z with _ | ⟨l, ls⟩
  · exact absurd hsp (splitNl_ne_nil z)
  · rw [hdrLines_cons_empty, prependStr]
    simp only [hdrLines, List.map_cons, List.filter_cons]
    have hh : ("## ".data) ++ l = '#' :: '#' :: ' ' :: l := rfl
    rw [hh, not_header_trim_hh]
    rw [hdrAt_eq_hdrLines, hsp]
    simp [hdrLines]

theorem entryHeaders_joinSec (x : Str) (xs : List Str) :
    entryHeaders (joinSep secSep (x :: xs)) =
      entryHeaders x ++ catL (xs.map (hdrAt 1)) := by
  have hfun : (fun z => hdrLines ([] :: prependStr ("## ".data) (splitNl z))) = hdrAt 1 :=
    funext hdrLines_chunk
  rw [entryHeaders_eq_hdrLines, splitNl_joinSec, hdrLines_append, hdrLines_catL,
    List.map_map]
  rw [show hdrLines ∘ (fun z => [] :: prependStr ("## ".data) (splitNl z)) =
    (fun z => hdrLines ([] :: prependStr ("## ".data) (splitNl z))) from rfl, hfun]
  rfl

/-! ## Claim C5 -/

theorem findIdxO_spec (p : Str → Bool) (l : List Str) (i : Nat)
    (h : findIdxO p l = some i) : i < l.length ∧ p (l.getD i []) = true := by
  induction l generalizing i with
  | nil => cases h
  | cons x xs ih =>
      rw [findIdxO] at h
      by_cases hp : p x
      · rw [if_pos hp] at h
        injection h with h
        subst h
        simpa using hp
      · rw [if_neg hp] at h
        cases hfx : findIdxO p xs with
        | none => rw [hfx] at h; cases h
        | some j =>
            rw [hfx] at h
            simp only [Option.map] at h
            injection h with h
            subst h
            obtain ⟨hlt, hpj⟩ := ih j hfx
            exact ⟨by simpa using Nat.succ_lt_succ hlt, by simpa using hpj⟩

theorem one_le_splitNl_length (s : Str) : 1 ≤ (splitNl s).length :=
  List.length_pos.mpr (splitNl_ne_nil s)

theorem entryHeaders_eq_hdrAt0 (s : Str) : entryHeaders s = hdrAt 0 s := by
  simp [entryHeaders, hdrAt]

theorem entryHeaders_trimRight (s : Str) : entryHeaders (trimRight s) = entryHeaders s := by
  rw [entryHeaders_eq_hdrAt0, entryHeaders_eq_hdrAt0]
  exact hdrAt_trimRight 0 s (by omega)

theorem strStarts_cons_ex (a : Char) (pp s : Str) (h : strStarts (a :: pp) s = true) :
    ∃ t, s = a :: t := by
  cases s with
  | nil => simp [strStarts] at h
  | cons b bs =>
      rw [strStarts] at h
      simp only [Bool.and_eq_true, decide_eq_true_eq] at h
      exact ⟨bs, by rw [h.1]⟩

theorem jsTrim_of_sectionHit (s : Str) (h : sectionHit s = true) : jsTrim s = trimRight s := by
  rw [jsTrim]
  cases ha : strStarts ("Technical Decisions".data) s with
  | true =>
      have ha2 : strStarts ('T' :: ("echnical Decisions".data)) s = true := ha
      obtain ⟨t, rfl⟩ := strStarts_cons_ex 'T' ("echnical Decisions".data) s ha2
      rw [trimLeft_cons_not_ws 'T' t (by decide)]
  | false =>
      cases hb : strStarts ("Pending Decisions".data) s with
      | true =>
          have hb2 : strStarts ('P' :: ("ending Decisions".data)) s = true := hb
          obtain ⟨t, rfl⟩ := strStarts_cons_ex 'P' ("ending Decisions".data) s hb2
          rw [trimLeft_cons_not_ws 'P' t (by decide)]
      | false =>
          rw [sectionHit, ha, hb] at h
          cases h

theorem entryHeaders_trim_block (T nd : Str) :
    entryHeaders (T ++ ("\n\n".data) ++ nd) = entryHeaders T ++ entryHeaders nd := by
  have h : T ++ ("\n\n".data) ++ nd = T ++ '\n' :: ('\n' :: nd) := by
    simp [List.append_assoc]
  rw [entryHeaders_eq_hdrLines, h, splitNl_append_nl, splitNl_cons_nl, hdrLines_append,
    hdrLines_cons_empty, ← entryHeaders_eq_hdrLines, ← entryHeaders_eq_hdrLines]

theorem hdrAt1_trim_block (T nd : Str) :
    hdrAt 1 (T ++ ("\n\n".data) ++ nd) = hdrAt 1 T ++ entryHeaders nd := by
  have h : T ++ ("\n\n".data) ++ nd = T ++ '\n' :: ('\n' :: nd) := by
    simp [List.append_assoc]
  rw [hdrAt_eq_hdrLines, h, splitNl_append_nl, splitNl_cons_nl,
    List.drop_append_of_le_length (one_le_splitNl_length T), hdrLines_append,
    hdrLines_cons_empty, ← hdrAt_eq_hdrLines, ← entryHeaders_eq_hdrLines]

theorem list_decomp_set (l : List Str) (i : Nat) (m : Str) (h : i < l.length) :
    l = l.take i ++ (l.getD i []) :: l.drop (i + 1) ∧
    l.set i m = l.take i ++ m :: l.drop (i + 1) := by
  constructor
  · conv_lhs => rw [← List.take_append_drop i l]
    congr 1
    rw [List.getD_eq_getElem l [] h]
    exact (List.getElem_cons_drop l i h).symm
  · rw [List.set_eq_take_append_cons_drop, if_pos h]

theorem sublist_insert_after (A X C : List Str) : A ++ C <+ A ++ (X ++ C) :=
  (List.sublist_append_right X C).append_left A

/-- Claim C5: the decision-append operation keeps every decision-entry
header of the input, in the same relative order (the entry headers of the
input form a sublist of the entry headers of the output; header lines are
compared after stripping trailing whitespace, which the section `trim` can
remove at the very end of the spliced section). -/
theorem C5_decision_append_preserves_entries (current : Str) (d : Decision) (today : Str) :
    entryHeaders current <+ entryHeaders (addDecision current d today) := by
  cases hidx : findIdxO sectionHit (splitSec current) with
  | none =>
      have hout : addDecision current d today = current := by
        simp only [addDecision, hidx]
      rw [hout]
  | some i =>
      obtain ⟨hlt, hhit⟩ := findIdxO_spec sectionHit (splitSec current) i hidx
      have hout : addDecision current d today =
          joinSep secSep ((splitSec current).set i
            (jsTrim ((splitSec current).getD i []) ++ ("\n\n".data) ++
              newDecisionBlock d today)) := by
        simp only [addDecision, hidx]
      obtain ⟨hdec, hset⟩ := list_decomp_set (splitSec current) i
        (jsTrim ((splitSec current).getD i []) ++ ("\n\n".data) ++ newDecisionBlock d today)
        hlt
      have hm : entryHeaders (jsTrim ((splitSec current).getD i []) ++ ("\n\n".data) ++
          newDecisionBlock d today) =
          entryHeaders ((splitSec current).getD i []) ++
            entryHeaders (newDecisionBlock d today) := by
        rw [entryHeaders_trim_block, jsTrim_of_sectionHit _ hhit, entryHeaders_trimRight]
      have hm1 : hdrAt 1 (jsTrim ((splitSec current).getD i []) ++ ("\n\n".data) ++
          newDecisionBlock d today) =
          hdrAt 1 ((splitSec current).getD i []) ++
            entryHeaders (newDecisionBlock d today) := by
        rw [hdrAt1_trim_block, jsTrim_of_sectionHit _ hhit, hdrAt_trimRight 1 _ (by omega)]
      have hcur : entryHeaders current =
          entryHeaders (joinSep secSep ((splitSec current).take i ++
            ((splitSec current).getD i []) :: (splitSec current).drop (i + 1))) := by
        conv_lhs => rw [← joinSec_splitSec current, hdec]
      rw [hout, hset, hcur]
      cases htk : (splitSec current).take i with
      | nil =>
          rw [List.nil_append, List.nil_append, entryHeaders_joinSec,
            entryHeaders_joinSec, hm, List.append_assoc]
          exact sublist_insert_after _ _ _
      | cons u0 u2 =>
          rw [List.cons_append, List.cons_append, entryHeaders_joinSec,
            entryHeaders_joinSec, List.map_append, List.map_append, List.map_cons,
            List.map_cons, catL_append, catL_append, catL_cons, catL_cons, hm1,
            List.append_assoc]
          exact ((sublist_insert_after _ _ _).append_left _).append_left _
